import Mathlib

/-!
Verification development for the push_analytic recommendation service.

The definitions below are a shallow embedding of the Python source:

* `validateMsg` / `validate_message` embed
  `ScenarioIntegration._validate_message` (src/notifications/scenario_integration.py,
  lines 273-293): length window, exclamation cap, upper-case fix, whitespace
  collapse, executed in that order on a sequence of Unicode code points
  (modelled as `List Char`, matching Python's `str` indexing).
* Case conversion (`str.capitalize`, `str.isupper`, `str.lower`) is modelled by
  explicit case tables covering ASCII, the Cyrillic alphabet (the character
  repertoire of the shipped ru-KZ locale) and U+0130, the character whose
  full lowercase mapping is longer than one code point — CPython applies the
  full Unicode mappings, so `str.capitalize` can lengthen a string.
  `str.split()` whitespace is the Python whitespace set.
* `format_amount` embeds `MessageTemplates.format_amount`
  (src/notifications/message_templates.py, lines 144-153), with float rounding
  modelled as round-half-even on exact rationals.
* `analyze_client_with_scenarios` embeds the evaluator loop of
  src/api/analyzer.py (lines 15-137); the per-scenario body (scenario analysis,
  client-data fetch, notification generation) is abstracted as a `step`
  function that can raise, exactly as the loop's try/except treats it, and the
  30-second deadline check is abstracted as a per-iteration `timedOut` flag.
* `sortNotifications` embeds `notifications.sort(key=lambda x:
  (x.get('priority', 'low'), x.get('analysis_score', 0)), reverse=True)`:
  a stable descending sort on the (string, rational) pair, which is what
  CPython's stable `list.sort` with `reverse=True` computes.
* `travelCard_analyze_client` embeds `TravelCardScenario.analyze_client`
  (src/products/travel_card_fixed.py) including the hidden `self.travel_data`
  attribute, threaded explicitly as an `Option TravelData` state.
* `exportCSVRows` embeds the per-customer loop of `ExportCSV.get`
  (src/api/notification_api.py, lines 457-491).
-/

/- Batteries marks the rational arithmetic operations `@[irreducible]`, which
blocks kernel evaluation of the embedded money arithmetic; restore the
ordinary reducibility so that concrete runs of the embedding can be settled
by `decide`. -/
set_option allowUnsafeReducibility true in
attribute [semireducible] Rat.mul Rat.add Rat.sub Rat.inv Rat.ofScientific

/-! ## Character-level model of Python string primitives -/

/-- Upper-to-lower case table: ASCII letters plus the Cyrillic alphabet
(А-Я/а-я and Ё/ё), a one-to-one mapping. -/
def caseTbl : List (Char × Char) :=
  [('A', 'a'), ('B', 'b'), ('C', 'c'), ('D', 'd'), ('E', 'e'), ('F', 'f'),
   ('G', 'g'), ('H', 'h'), ('I', 'i'), ('J', 'j'), ('K', 'k'), ('L', 'l'),
   ('M', 'm'), ('N', 'n'), ('O', 'o'), ('P', 'p'), ('Q', 'q'), ('R', 'r'),
   ('S', 's'), ('T', 't'), ('U', 'u'), ('V', 'v'), ('W', 'w'), ('X', 'x'),
   ('Y', 'y'), ('Z', 'z'),
   ('А', 'а'), ('Б', 'б'), ('В', 'в'), ('Г', 'г'), ('Д', 'д'), ('Е', 'е'),
   ('Ж', 'ж'), ('З', 'з'), ('И', 'и'), ('Й', 'й'), ('К', 'к'), ('Л', 'л'),
   ('М', 'м'), ('Н', 'н'), ('О', 'о'), ('П', 'п'), ('Р', 'р'), ('С', 'с'),
   ('Т', 'т'), ('У', 'у'), ('Ф', 'ф'), ('Х', 'х'), ('Ц', 'ц'), ('Ч', 'ч'),
   ('Ш', 'ш'), ('Щ', 'щ'), ('Ъ', 'ъ'), ('Ы', 'ы'), ('Ь', 'ь'), ('Э', 'э'),
   ('Ю', 'ю'), ('Я', 'я'), ('Ё', 'ё')]

/-- Look a character up among the first components of a table. -/
def tblLookup (c : Char) : List (Char × Char) → Option Char
  | [] => none
  | (a, b) :: rest => if c = a then some b else tblLookup c rest

/-- Look a character up among the second components of a table. -/
def tblLookupRev (c : Char) : List (Char × Char) → Option Char
  | [] => none
  | (a, b) :: rest => if c = b then some a else tblLookupRev c rest

/-- The simple, one-to-one part of `str.lower` on one character. -/
def toLowerRu (c : Char) : Char := (tblLookup c caseTbl).getD c

/-- The unconditional multi-character lowercase mappings of Unicode
SpecialCasing, which CPython's `str.lower` applies: U+0130 (LATIN CAPITAL
LETTER I WITH DOT ABOVE) lowercases to `"i"` followed by U+0307 (COMBINING
DOT ABOVE). -/
def lowerSpecial : List (Char × List Char) := [('\u0130', ['i', '\u0307'])]

/-- Look a character up in a one-to-many table. -/
def tblLookupMulti (c : Char) : List (Char × List Char) → Option (List Char)
  | [] => none
  | (a, l) :: rest => if c = a then some l else tblLookupMulti c rest

/-- Model of `str.lower` on one character: the full mapping, which can
produce more than one code point. -/
def pyLowerChar (c : Char) : List Char :=
  (tblLookupMulti c lowerSpecial).getD [toLowerRu c]

/-- Model of the title-casing `str.capitalize` applies to the first character. -/
def toUpperRu (c : Char) : Char := (tblLookupRev c caseTbl).getD c

/-- The character is an upper-case letter of the modelled repertoire;
U+0130 is uppercase with only the multi-character lowercase mapping. -/
def isUpperChar (c : Char) : Bool := (tblLookup c caseTbl).isSome || c == '\u0130'

/-- The character is a lower-case letter of the modelled repertoire. -/
def isLowerChar (c : Char) : Bool := (tblLookupRev c caseTbl).isSome

/-- The whitespace set recognized by Python's `str.split()`. -/
def pySpaceChars : List Char :=
  [' ', '\t', '\n', '\r', '\x0b', '\x0c',
   '\x1c', '\x1d', '\x1e', '\x1f', '\u0085', '\u00a0', '\u1680',
   '\u2000', '\u2001', '\u2002', '\u2003', '\u2004', '\u2005', '\u2006',
   '\u2007', '\u2008', '\u2009', '\u200a', '\u2028', '\u2029', '\u202f',
   '\u205f', '\u3000']

/-- Model of `str.split()` whitespace membership. -/
def isPySpace (c : Char) : Bool := pySpaceChars.contains c

/-- Model of `str.isupper`: no lower-case cased character and at least one
cased character (which, with no lower-case ones, means an upper-case one). -/
def pyIsUpper (m : List Char) : Bool :=
  m.all (fun c => !isLowerChar c) && m.any (fun c => isUpperChar c)

/-- Model of `str.capitalize`: first character title-cased, the rest
lowered with the full mapping — so the result can be longer than the
input. -/
def pyCapitalize : List Char → List Char
  | [] => []
  | c :: cs => toUpperRu c :: cs.flatMap pyLowerChar

/-! ## The TOV validator `_validate_message` -/

/-- The string `' Узнать подробнее?'` appended to short messages. -/
def learnMore : List Char := " Узнать подробнее?".data

/-- Step 1 of `_validate_message`: `message[:217] + '...'` when longer than
220, append `' Узнать подробнее?'` when shorter than 50. -/
def lenStep (m : List Char) : List Char :=
  if 220 < m.length then m.take 217 ++ ['.', '.', '.']
  else if m.length < 50 then m ++ learnMore
  else m

/-- Model of `str.replace(ch, '', n)`: remove the first `n` occurrences. -/
def removeN (ch : Char) : Nat → List Char → List Char
  | _, [] => []
  | 0, l => l
  | n + 1, d :: l => if d = ch then removeN ch n l else d :: removeN ch (n + 1) l

/-- Step 2 of `_validate_message`: when more than one `'!'` is present,
`message.replace('!', '', count - 1)` removes all but the last one. -/
def exclaimStep (m : List Char) : List Char :=
  if 1 < m.count '!' then removeN '!' (m.count '!' - 1) m else m

/-- Step 3 of `_validate_message`: `message.capitalize()` when
`message.isupper()`. -/
def capsStep (m : List Char) : List Char :=
  if pyIsUpper m then pyCapitalize m else m

/-- Whitespace collapsing: emits each non-space character, with a single
`' '` in front of it when whitespace was pending. -/
def collapseAux : Bool → List Char → List Char
  | _, [] => []
  | pending, c :: cs =>
    if isPySpace c then collapseAux true cs
    else if pending then ' ' :: c :: collapseAux false cs
    else c :: collapseAux false cs

/-- Step 4 of `_validate_message`: `' '.join(message.split())`. -/
def spaceStep (m : List Char) : List Char :=
  collapseAux false (m.dropWhile isPySpace)

/-- The TOV validator `ScenarioIntegration._validate_message` on code-point
sequences: length window, exclamation cap, upper-case fix, whitespace
collapse, in the source's order. -/
def validateMsg (m : List Char) : List Char :=
  spaceStep (capsStep (exclaimStep (lenStep m)))

/-- The TOV validator on strings. -/
def validate_message (s : String) : String := ⟨validateMsg s.data⟩

/-! ## Money formatting: `MessageTemplates.format_amount` -/

/-- Round-half-even to an integer, the rounding of Python's float formatting,
taken on exact rationals. -/
def roundQ (q : ℚ) : ℤ :=
  let f := ⌊q⌋
  let r := q - f
  if r < 1 / 2 then f
  else if 1 / 2 < r then f + 1
  else if f % 2 = 0 then f else f + 1

/-- Python `round(q, 2)` used by `calculate_expected_benefit`. -/
def round2 (q : ℚ) : ℚ := (roundQ (q * 100) : ℚ) / 100

/-- The ten decimal digit characters. -/
def digitChars : List Char := ['0', '1', '2', '3', '4', '5', '6', '7', '8', '9']

/-- Digit character of a value below ten. -/
def digitChar (n : Nat) : Char := digitChars.getD n '0'

/-- Decimal digits of a natural number, least significant first (with fuel,
always sufficient at `n + 1`). -/
def digitsRevAux : Nat → Nat → List Char
  | 0, _ => []
  | fuel + 1, n =>
    if n < 10 then [digitChar n] else digitChar (n % 10) :: digitsRevAux fuel (n / 10)

/-- Decimal digits of a natural number, least significant first. -/
def natDigitsRev (n : Nat) : List Char := digitsRevAux (n + 1) n

/-- Insert the thousands separator `' '` after every third character of a
least-significant-first digit list (`"{:,}".format` with `','` replaced by
an ASCII space, as `format_amount` does). -/
def insSep : List Char → Nat → List Char
  | [], _ => []
  | [c], _ => [c]
  | c :: d :: rest, i =>
    if i % 3 = 2 then c :: ' ' :: insSep (d :: rest) (i + 1)
    else c :: insSep (d :: rest) (i + 1)

/-- Grouped decimal representation of a natural number, most significant
first, ASCII-space thousands separators. -/
def groupDigits (n : Nat) : List Char := (insSep (natDigitsRev n) 0).reverse

/-- `MessageTemplates.format_amount`: millions as `"X,Y млн₸"`, thousands
grouped with ASCII spaces and `'₸'` appended directly, small amounts as bare
digits with `'₸'` appended.  Float rounding is modelled as round-half-even on
exact rationals. -/
def format_amount (amount : ℚ) : String :=
  if 1000000 ≤ amount then
    let n := roundQ (amount / 1000000 * 10)
    ⟨(if n < 0 then ['-'] else []) ++ (natDigitsRev (n.natAbs / 10)).reverse ++
      [','] ++ [digitChar (n.natAbs % 10)] ++ " млн₸".data⟩
  else if 1000 ≤ amount then
    let n := roundQ amount
    ⟨(if n < 0 then ['-'] else []) ++ groupDigits n.natAbs ++ ['₸']⟩
  else
    let n := roundQ amount
    ⟨(if n < 0 then ['-'] else []) ++ (natDigitsRev n.natAbs).reverse ++ ['₸']⟩

/-! ## Notifications, the ranking sort, and the evaluator loop -/

/-- One generated notification as the analyzer loop sees it: the dictionary
fields that the ranking and the CSV exporter read. -/
structure Notification where
  message : String
  product_name : String
  priority : String
  analysis_score : ℚ
  expected_benefit : ℚ
  product_key : String
  client_code : String
deriving Repr, DecidableEq

/-- Python string `<`: lexicographic comparison of the code-point
sequences. -/
def pyStrLt (a b : String) : Prop := a.data < b.data

instance (a b : String) : Decidable (pyStrLt a b) := by
  unfold pyStrLt; infer_instance

/-- The comparison the Python sort key induces: CPython compares the tuple
`(priority, analysis_score)` with string comparison on the first component,
so `KeyLt a b` says `a`'s key is strictly smaller. -/
def KeyLt (a b : Notification) : Prop :=
  pyStrLt a.priority b.priority ∨
    (a.priority = b.priority ∧ a.analysis_score < b.analysis_score)

instance (a b : Notification) : Decidable (KeyLt a b) := by
  unfold KeyLt; infer_instance

/-- Stable descending insertion: a new element is placed in front of the
first existing element it is not key-below, so equal keys keep their original
order, as CPython's stable `list.sort(reverse=True)` does. -/
def insertDesc (x : Notification) : List Notification → List Notification
  | [] => [x]
  | y :: ys => if KeyLt x y then y :: insertDesc x ys else x :: y :: ys

/-- `notifications.sort(key=lambda x: (x.get('priority', 'low'),
x.get('analysis_score', 0)), reverse=True)` from src/api/analyzer.py line 119
(and the same sort on `(x['priority'], x['score'])` in
`generate_recommendation_notifications`): stable descending sort on the
`(priority-string, score)` pair. -/
def sortNotifications (l : List Notification) : List Notification :=
  l.foldr insertDesc []

/-- The scenario registry of `analyze_client_with_scenarios`, in its Python
dict insertion order. -/
def scenarioKeys : List String :=
  ["travel_card", "premium_card", "credit_card", "currency_exchange",
   "multi_currency_deposit", "savings_deposit", "accumulation_deposit",
   "investments", "gold_bars", "cash_credit"]

/-- The evaluator loop of `analyze_client_with_scenarios`: before each
scenario the 30-second deadline is checked (`timedOut n` at iteration `n`;
on expiry the loop breaks), then the scenario body runs (`step`: scenario
analysis, client-data fetch, notification generation — any raise is caught
and the loop continues), and a successful notification is appended with
`product_key` set to the scenario's registry key. -/
def runScenarios (timedOut : Nat → Bool) (step : String → Except Unit Notification) :
    List String → Nat → List Notification
  | [], _ => []
  | k :: ks, n =>
    if timedOut n then []
    else
      match step k with
      | Except.error _ => runScenarios timedOut step ks (n + 1)
      | Except.ok v => { v with product_key := k } :: runScenarios timedOut step ks (n + 1)

/-- `analyze_client_with_scenarios` (src/api/analyzer.py): run the ten
scenarios under the deadline, collecting the surviving notifications, then
sort them by `(priority, analysis_score)` descending. -/
def analyze_client_with_scenarios (timedOut : Nat → Bool)
    (step : String → Except Unit Notification) : List Notification :=
  sortNotifications (runScenarios timedOut step scenarioKeys 0)

/-! ## The batch CSV exporter loop -/

/-- The per-customer loop of `ExportCSV.get` (src/api/notification_api.py,
lines 457-491): for each `(client_code, name)` row the fast analyzer is
called; a raise yields the `"Ошибка анализа"` diagnostic row and the loop
continues; an empty result yields the `"Нет подходящих продуктов"` row;
otherwise the top-1 notification's product and message are written. -/
def exportCSVRows (analyzeFast : Nat → Except String (List Notification))
    (clients : List (Nat × String)) : List (Nat × String × String) :=
  clients.map (fun cl =>
    match analyzeFast cl.1 with
    | Except.error _ =>
      (cl.1, "Ошибка анализа", cl.2 ++ ", произошла ошибка при анализе ваших данных.")
    | Except.ok [] =>
      (cl.1, "Нет подходящих продуктов",
        cl.2 ++ ", у вас пока нет подходящих продуктов. Мы уведомим, когда появятся новые предложения.")
    | Except.ok (best :: _) => (cl.1, best.product_name, best.message))

/-- What `from .analyzer import analyze_client_fast` actually does in the
shipped source: `src/api/analyzer.py` defines no `analyze_client_fast`
(nothing in the repository does), so the statement raises `ImportError`
inside the per-customer `try` for every customer. -/
def analyze_client_fast_actual : Nat → Except String (List Notification) :=
  fun _ => Except.error "ImportError: cannot import name analyze_client_fast from src.api.analyzer"

/-! ## The TravelCard scenario -/

/-- One card transaction, the fields `TravelCardScenario` reads. -/
structure Tx where
  amount : ℚ
  category : String
  date : String
deriving Repr, DecidableEq

/-- The client row fields the scenario reads. -/
structure ClientInfo where
  name : String
  status : String
  avg_monthly_balance_KZT : ℚ
deriving Repr, DecidableEq

/-- The `client_data` dictionary `get_client_data` assembles (the transfer
list is omitted: `TravelCardScenario` never reads it). -/
structure ClientData where
  client_info : ClientInfo
  transactions : List Tx
deriving Repr, DecidableEq

/-- The `self.travel_data` dictionary `_analyze_travel_spending` stashes on
the scenario object. -/
structure TravelData where
  total_amount : ℚ
  travel_amount : ℚ
  travel_ratio : ℚ
  travel_transactions : List Tx
  potential_cashback : ℚ
deriving Repr, DecidableEq

/-- A scenario verdict as `format_analysis_result` shapes it (the nested
`match_score` dictionary repeats `score` and `reasons` verbatim and is
omitted). -/
structure AnalysisResult where
  score : ℚ
  reasons : List String
  expected_benefit : ℚ
deriving Repr, DecidableEq

/-- Python `str.lower` over the modelled repertoire (full mapping). -/
def lowerStr (s : String) : String := ⟨s.data.flatMap pyLowerChar⟩

/-- Python's `needle in hay` substring test. -/
def containsSub (needle hay : List Char) : Bool :=
  hay.tails.any (fun t => needle.isPrefixOf t)

/-- `key in status.lower()` as the scenario status checks spell it. -/
def statusContains (status key : String) : Bool :=
  containsSub key.data (lowerStr status).data

/-- `TravelCardScenario._analyze_client_status`. -/
def analyze_client_status (status : String) : ℚ :=
  if statusContains status "премиальный" then 1
  else if statusContains status "зарплатный" then 8 / 10
  else if statusContains status "стандартный" then 6 / 10
  else if statusContains status "студент" then 4 / 10
  else 1 / 2

/-- `BaseProductScenario.calculate_basic_score`: the balance band ladder. -/
def calculate_basic_score (cd : ClientData) : ℚ :=
  let b := cd.client_info.avg_monthly_balance_KZT
  if b < 100000 then 1 / 10
  else if b < 500000 then 3 / 10
  else if b < 1000000 then 6 / 10
  else if b < 3000000 then 8 / 10
  else 1

/-- `BaseProductScenario.calculate_expected_benefit`:
`round(avg_balance * 0.02 * score, 2)`. -/
def calculate_expected_benefit (cd : ClientData) (score : ℚ) : ℚ :=
  round2 (cd.client_info.avg_monthly_balance_KZT * (2 / 100) * score)

/-- The travel categories matched by exact string equality. -/
def travelCategories : List String := ["Такси", "Отели", "Путешествия"]

/-- Category test of `_analyze_travel_spending` (`category in
travel_categories`). -/
def isTravelTx (t : Tx) : Bool := travelCategories.contains t.category

/-- Total spend over the window (`total_amount` accumulator). -/
def txTotal (txs : List Tx) : ℚ := (txs.map Tx.amount).sum

/-- Travel-category spend over the window (`travel_amount` accumulator). -/
def travelTotal (txs : List Tx) : ℚ := ((txs.filter isTravelTx).map Tx.amount).sum

/-- `TravelCardScenario._analyze_travel_spending`: the travel-share ladder;
on a nonempty transaction list of nonzero total it also (re)writes
`self.travel_data`, otherwise the stale state survives. -/
def analyze_travel_spending (st : Option TravelData) (txs : List Tx) :
    ℚ × Option TravelData :=
  if txs.isEmpty then (0, st)
  else
    let total := txTotal txs
    let travel := travelTotal txs
    if total = 0 then (0, st)
    else
      let ratio := travel / total
      let td : TravelData :=
        ⟨total, travel, ratio, txs.filter isTravelTx, travel * (4 / 100)⟩
      let score :=
        if ratio ≥ 12 / 100 ∧ travel ≥ 50000 then 1
        else if ratio ≥ 12 / 100 * (8 / 10) ∧ travel ≥ 50000 * (8 / 10) then 8 / 10
        else if ratio ≥ 12 / 100 * (1 / 2) ∨ travel ≥ 50000 * (1 / 2) then 6 / 10
        else if ratio ≥ 12 / 100 * (2 / 10) ∨ travel ≥ 50000 * (2 / 10) then 3 / 10
        else 1 / 10
      (score, some td)

/-- `TravelCardScenario._analyze_travel_regularity`: fraction of observed
months containing a travel transaction (transactions without a date are
skipped for the travel count, as `if not date: continue` does). -/
def analyze_travel_regularity (txs : List Tx) : ℚ :=
  if txs.isEmpty then 0
  else
    let monthOf := fun (t : Tx) => t.date.take 7
    let travelMonths :=
      (((txs.filter (fun t => isTravelTx t && !(t.date = ""))).map monthOf).dedup).length
    let totalMonths := max 1 ((txs.map monthOf).dedup).length
    let ratio := (travelMonths : ℚ) / (totalMonths : ℚ)
    if ratio ≥ 8 / 10 then 1
    else if ratio ≥ 1 / 2 then 7 / 10
    else if ratio ≥ 3 / 10 then 4 / 10
    else 1 / 10

/-- Body of `TravelCardScenario.analyze_client` after the travel-spending
pass: weighted sum, reason collection, low-activity penalty, stale-state
bonus, and the base-class benefit. -/
def travelCardCore (cd : ClientData) (spend : ℚ × Option TravelData) :
    AnalysisResult × Option TravelData :=
  let statusScore := analyze_client_status cd.client_info.status
  let baseScore := calculate_basic_score cd
  let travelScore := spend.1
  let regularityScore := analyze_travel_regularity cd.transactions
  let score := statusScore * (2 / 10) + baseScore * (25 / 100) +
    travelScore * (4 / 10) + regularityScore * (15 / 100)
  let reasons0 :=
    (if statusScore > 7 / 10 then ["Подходящий статус клиента для карты путешествий"] else []) ++
    (if baseScore > 1 / 2 then ["Достаточный баланс для карты"] else []) ++
    (if travelScore > 3 / 10 then ["Активные траты на путешествия и транспорт"] else []) ++
    (if regularityScore > 1 / 2 then ["Регулярные поездки"] else [])
  let final0 := min score 1
  let final1 := if travelScore < 1 / 10 then final0 * (3 / 10) else final0
  let reasons1 :=
    reasons0 ++ (if travelScore < 1 / 10 then ["Низкая активность в путешествиях"] else [])
  let bonus :=
    match spend.2 with
    | some td => decide (td.travel_amount > 100000)
    | none => false
  let final2 := if bonus then min (final1 * (12 / 10)) 1 else final1
  let reasons2 := reasons1 ++ (if bonus then ["Высокие траты на путешествия"] else [])
  (⟨final2, reasons2, calculate_expected_benefit cd final2⟩, spend.2)

/-- `TravelCardScenario.analyze_client`, with the scenario object's hidden
`travel_data` attribute threaded explicitly: input state on the left of the
result, updated state on the right.  `none` client data is the
`if not client_data` early return. -/
def travelCard_analyze_client (st : Option TravelData) (cdo : Option ClientData) :
    AnalysisResult × Option TravelData :=
  match cdo with
  | none => (⟨0, ["Клиент не найден"], 0⟩, st)
  | some cd => travelCardCore cd (analyze_travel_spending st cd.transactions)

/-! ## Concrete runs used to settle the claims -/

/-- A customer with one large travel purchase. -/
def clientA : ClientData :=
  ⟨⟨"Айжан", "Стандартный", 200000⟩, [⟨150000, "Такси", "2025-08-01"⟩]⟩

/-- A customer with the same profile and no transactions at all. -/
def clientB : ClientData := ⟨⟨"Бек", "Стандартный", 200000⟩, []⟩

/-! ## Definitions taken from the specification, for comparison with the
source behaviour -/

/-- Modelled from the spec (§4.5): `priorityRank(high)=2, medium=1, low=0`. -/
def priorityRank_spec (p : String) : Nat :=
  if p = "high" then 2 else if p = "medium" then 1 else 0

/-- The spec's claimed ranking invariant on an output list: every result's
priority bucket rank is at least the rank of every later result. -/
def specBucketOrdered (l : List Notification) : Prop :=
  l.Pairwise (fun a b => priorityRank_spec b.priority ≤ priorityRank_spec a.priority)

instance (l : List Notification) : Decidable (specBucketOrdered l) := by
  unfold specBucketOrdered; infer_instance

/-- Modelled from the spec (Table 4.3): the claimed TravelCard benefit
`0.04 × travelSpend + 0.02 × balance`. -/
def travelCard_benefit_spec (cd : ClientData) : ℚ :=
  (4 / 100) * travelTotal cd.transactions +
    (2 / 100) * cd.client_info.avg_monthly_balance_KZT

/-- Modelled from the spec (§4.7 step 6): the closed call-to-action verb
set. -/
def ctaVerbs_spec : List String :=
  ["Открыть", "Настроить", "Посмотреть", "Оформить", "Узнать",
   "Попробовать", "Проверить", "Подключить", "Начать"]

/-- Modelled from the spec (§4.7 step 6): case-insensitive presence of a
call-to-action verb. -/
def hasCTA_spec (m : List Char) : Bool :=
  ctaVerbs_spec.any (fun v =>
    containsSub (v.data.flatMap pyLowerChar) (m.flatMap pyLowerChar))

/-- A high-priority, high-score notification as a scenario could emit it. -/
def nHigh : Notification :=
  ⟨"Вы активно путешествуете — тревел-карта вернёт кешбэк. Оформить?",
   "Карта для путешествий", "high", 9 / 10, 200000, "", "1"⟩

/-- A low-priority, low-score notification. -/
def nLow : Notification :=
  ⟨"Кредит наличными на любые цели. Узнать лимит?",
   "Кредит наличными", "low", 2 / 10, 1000, "", "1"⟩

/-- A run in which the travel-card scenario yields `nHigh`, the premium-card
scenario yields `nLow`, and the remaining eight scenarios raise. -/
def stepC1 : String → Except Unit Notification := fun k =>
  if k = "travel_card" then Except.ok nHigh
  else if k = "premium_card" then Except.ok nLow
  else Except.error ()

/-- A deadline that is never hit. -/
def noDeadline : Nat → Bool := fun _ => false

/-- A 71-character message with two exclamation marks and no call-to-action
verb. -/
def m8 : String := "Привет, это сообщение без нужного глагола! И вторая фраза тоже! Конец."

/-- The whitespace-heavy input on which the validator is not idempotent: a
single letter followed by sixty spaces. -/
def c5input : List Char := 'a' :: List.replicate 60 ' '

/-! ## Length lemmas for the validator -/

theorem length_collapseAux (p : Bool) (m : List Char) :
    (collapseAux p m).length ≤ m.length + (if p then 1 else 0) := by
  induction m generalizing p with
  | nil => simp [collapseAux]
  | cons c cs ih =>
    simp only [collapseAux]
    cases h : isPySpace c with
    | true =>
      have h1 := ih true
      simp only [if_true] at h1
      simp only [h, if_true, List.length_cons]
      cases p <;> simp <;> omega
    | false =>
      have h0 := ih false
      simp only [Bool.false_eq_true, if_false, Nat.add_zero] at h0
      simp only [h, Bool.false_eq_true, if_false]
      cases p <;> simp <;> omega

theorem length_spaceStep (m : List Char) : (spaceStep m).length ≤ m.length := by
  have h1 := length_collapseAux false (m.dropWhile isPySpace)
  have h2 : (m.dropWhile isPySpace).length ≤ m.length :=
    (List.dropWhile_sublist _).length_le
  simp only [Bool.false_eq_true, if_false, Nat.add_zero] at h1
  exact le_trans h1 h2

theorem length_removeN (ch : Char) (n : Nat) (m : List Char) :
    (removeN ch n m).length ≤ m.length := by
  induction m generalizing n with
  | nil => simp [removeN]
  | cons d l ih =>
    cases n with
    | zero => simp [removeN]
    | succ k =>
      simp only [removeN]
      by_cases h : d = ch
      · simp only [h, if_true]
        exact le_trans (ih k) (by simp)
      · simp only [h, if_false, List.length_cons]
        exact Nat.succ_le_succ (ih (k + 1))

theorem length_exclaimStep_le (m : List Char) : (exclaimStep m).length ≤ m.length := by
  unfold exclaimStep
  split
  · exact length_removeN _ _ _
  · exact le_refl _

/-! ## Full-lowercase-mapping basics -/

theorem pyLowerChar_of_ne {c : Char} (h : c ≠ '\u0130') :
    pyLowerChar c = [toLowerRu c] := by
  simp only [pyLowerChar, lowerSpecial, tblLookupMulti, if_neg h, Option.getD_none]

theorem pyLowerChar_iDot : pyLowerChar '\u0130' = ['i', '\u0307'] := by decide

theorem flatMap_pyLowerChar_of_not_mem {l : List Char} (h : '\u0130' ∉ l) :
    l.flatMap pyLowerChar = l.map toLowerRu := by
  induction l with
  | nil => rfl
  | cons c cs ih =>
    have hc : c ≠ '\u0130' := fun he => h (he ▸ List.mem_cons_self _ _)
    have hcs : '\u0130' ∉ cs := fun hm => h (List.mem_cons_of_mem _ hm)
    rw [List.flatMap_cons, List.map_cons, pyLowerChar_of_ne hc, ih hcs]
    rfl

theorem length_pyLowerChar_le (c : Char) : (pyLowerChar c).length ≤ 2 := by
  by_cases h : c = '\u0130'
  · subst h
    rw [pyLowerChar_iDot]
    decide
  · rw [pyLowerChar_of_ne h]
    simp

theorem length_flatMap_pyLowerChar_le (l : List Char) :
    (l.flatMap pyLowerChar).length ≤ 2 * l.length := by
  induction l with
  | nil => simp
  | cons c cs ih =>
    rw [List.flatMap_cons, List.length_append]
    have h1 := length_pyLowerChar_le c
    simp only [List.length_cons]
    omega

theorem length_capsStep_le {m : List Char} (h : m.length ≤ 220) :
    (capsStep m).length ≤ 439 := by
  unfold capsStep
  split
  · cases m with
    | nil => simp [pyCapitalize]
    | cons c cs =>
      simp only [pyCapitalize, List.length_cons]
      have h1 := length_flatMap_pyLowerChar_le cs
      simp only [List.length_cons] at h
      omega
  · omega

theorem length_capsStep_eq_of_no_iDot {m : List Char} (h : '\u0130' ∉ m) :
    (capsStep m).length = m.length := by
  unfold capsStep
  split
  · cases m with
    | nil => rfl
    | cons c cs =>
      have hcs : '\u0130' ∉ cs := fun hm => h (List.mem_cons_of_mem _ hm)
      simp [pyCapitalize, flatMap_pyLowerChar_of_not_mem hcs]
  · rfl

theorem length_lenStep_le (m : List Char) : (lenStep m).length ≤ 220 := by
  unfold lenStep
  split_ifs with h1 h2
  · simp only [List.length_append, List.length_take, List.length_cons, List.length_nil]
    omega
  · have h3 : learnMore.length = 18 := by decide
    simp only [List.length_append, h3]
    omega
  · omega

theorem mem_removeN {v ch : Char} :
    ∀ {n : Nat} {m : List Char}, v ∈ removeN ch n m → v ∈ m := by
  intro n m
  induction m generalizing n with
  | nil => intro h; simp [removeN] at h
  | cons d l ih =>
    intro h
    cases n with
    | zero =>
      simp only [removeN] at h
      exact h
    | succ k =>
      simp only [removeN] at h
      split at h
      · exact List.mem_cons_of_mem _ (ih h)
      · rcases List.mem_cons.mp h with h1 | h1
        · exact h1 ▸ List.mem_cons_self _ _
        · exact List.mem_cons_of_mem _ (ih h1)

theorem no_iDot_exclaimStep {m : List Char} (h : '\u0130' ∉ m) :
    '\u0130' ∉ exclaimStep m := by
  unfold exclaimStep
  split
  · exact fun hv => h (mem_removeN hv)
  · exact h

theorem no_iDot_lenStep {m : List Char} (h : '\u0130' ∉ m) :
    '\u0130' ∉ lenStep m := by
  unfold lenStep
  split_ifs with h1 h2
  · intro hv
    rcases List.mem_append.mp hv with hv | hv
    · exact h ((List.take_sublist _ _).subset hv)
    · exact absurd hv (by decide)
  · intro hv
    rcases List.mem_append.mp hv with hv | hv
    · exact h hv
    · exact absurd hv (by decide)
  · exact h

theorem validateMsg_length_le_439 (m : List Char) :
    (validateMsg m).length ≤ 439 := by
  have h1 := length_lenStep_le m
  have h2 := length_exclaimStep_le (lenStep m)
  have h3 := length_capsStep_le (m := exclaimStep (lenStep m)) (by omega)
  have h4 := length_spaceStep (capsStep (exclaimStep (lenStep m)))
  simp only [validateMsg]
  omega

theorem validateMsg_length_le_of_no_iDot {m : List Char} (h : '\u0130' ∉ m) :
    (validateMsg m).length ≤ 220 := by
  have h1 := length_lenStep_le m
  have h2 := length_exclaimStep_le (lenStep m)
  have h3 := length_capsStep_eq_of_no_iDot (no_iDot_exclaimStep (no_iDot_lenStep h))
  have h4 := length_spaceStep (capsStep (exclaimStep (lenStep m)))
  simp only [validateMsg]
  omega

set_option maxRecDepth 4000 in
/-- C10 counterexample: the claimed unconditional 220-character bound is
false — on 120 copies of U+0130 the message passes the length window, is
all-uppercase, and `capitalize()` lowercases the tail with the full Unicode
mapping (U+0130 → `"i"` U+0307), returning 239 characters. -/
theorem c10_counterexample_capitalize_expands :
    (validate_message ⟨List.replicate 120 '\u0130'⟩).length = 239 ∧
      220 < (validate_message ⟨List.replicate 120 '\u0130'⟩).length := by
  constructor
  · decide
  · decide

/-- C10 amended: the validator's output is at most 220 characters for every
input not containing U+0130 — the one character whose full lowercase
mapping is longer than one code point, through which `capitalize()` can
lengthen an all-uppercase message — and in general at most 439
characters. -/
theorem c10_amended_length_bounds (m : List Char) :
    (validateMsg m).length ≤ 439 ∧
      ('\u0130' ∉ m → (validateMsg m).length ≤ 220) :=
  ⟨validateMsg_length_le_439 m, fun h => validateMsg_length_le_of_no_iDot h⟩

/-- Witness for the amended C10 at the empty input. -/
theorem c10_amended_length_bounds_witness :
    (validateMsg "".data).length ≤ 439 ∧ (validateMsg "".data).length ≤ 220 :=
  ⟨(c10_amended_length_bounds "".data).1,
   (c10_amended_length_bounds "".data).2 (by decide)⟩

/-- C4 counterexample: on the empty input the validator appends
`' Узнать подробнее?'` (and collapses the leading space), producing a
17-character message, so the claimed lower bound `50 ≤ len` is false. -/
theorem c4_counterexample_short_output :
    validate_message "" = "Узнать подробнее?" ∧
      ¬ 50 ≤ (validate_message "").length := by
  constructor
  · decide
  · decide

/-- C4 amended: the validator's output is at most 220 characters for every
input without U+0130 (whose full lowercase mapping lets `capitalize()`
lengthen an all-uppercase message past 220); an input shorter than 50
characters has `' Узнать подробнее?'` appended by the length step (which
need not bring it up to 50); an input longer than 220 characters is
truncated at 217 characters with `'...'` — three ASCII dots — appended by
the length step. -/
theorem c4_amended_length_window (m : List Char) :
    ('\u0130' ∉ m → (validateMsg m).length ≤ 220) ∧
      (m.length < 50 → lenStep m = m ++ learnMore) ∧
      (220 < m.length → lenStep m = m.take 217 ++ ['.', '.', '.']) := by
  refine ⟨fun h => validateMsg_length_le_of_no_iDot h, fun h => ?_, fun h => ?_⟩
  · unfold lenStep
    rw [if_neg (by omega), if_pos h]
  · unfold lenStep
    rw [if_pos h]

/-- Witness for the amended C4 at the empty input and at a 230-character
input. -/
theorem c4_amended_length_window_witness :
    (validateMsg "".data).length ≤ 220 ∧
      lenStep "".data = "".data ++ learnMore ∧
      lenStep (List.replicate 230 'ы') =
        (List.replicate 230 'ы').take 217 ++ ['.', '.', '.'] :=
  ⟨(c4_amended_length_window "".data).1 (by decide),
   (c4_amended_length_window "".data).2.1 (by decide),
   (c4_amended_length_window (List.replicate 230 'ы')).2.2
     (by rw [List.length_replicate]; omega)⟩

/-! ## Character-table lemmas -/

theorem tblLookup_mem_snd {c v : Char} {tbl : List (Char × Char)}
    (h : tblLookup c tbl = some v) : v ∈ tbl.map Prod.snd := by
  induction tbl with
  | nil => simp [tblLookup] at h
  | cons p rest ih =>
    rcases p with ⟨a, b⟩
    simp only [tblLookup] at h
    by_cases hc : c = a
    · rw [if_pos hc] at h
      cases h
      simp
    · rw [if_neg hc] at h
      simp [ih h]

theorem tblLookupRev_mem_snd {c v : Char} {tbl : List (Char × Char)}
    (h : tblLookupRev c tbl = some v) : c ∈ tbl.map Prod.snd := by
  induction tbl with
  | nil => simp [tblLookupRev] at h
  | cons p rest ih =>
    rcases p with ⟨a, b⟩
    simp only [tblLookupRev] at h
    by_cases hc : c = b
    · simp [hc]
    · rw [if_neg hc] at h
      simp [ih h]

theorem tblLookup_mem_fst {c : Char} {tbl : List (Char × Char)}
    (h : (tblLookup c tbl).isSome = true) : c ∈ tbl.map Prod.fst := by
  induction tbl with
  | nil => simp [tblLookup] at h
  | cons p rest ih =>
    rcases p with ⟨a, b⟩
    simp only [tblLookup] at h
    by_cases hc : c = a
    · simp [hc]
    · rw [if_neg hc] at h
      simp [ih h]

theorem toLowerRu_eq_bang {c : Char} (h : toLowerRu c = '!') : c = '!' := by
  unfold toLowerRu at h
  cases hl : tblLookup c caseTbl with
  | none => simpa [hl] using h
  | some v =>
    rw [hl] at h
    simp only [Option.getD_some] at h
    subst h
    have hv := tblLookup_mem_snd hl
    have : ¬ ('!' ∈ caseTbl.map Prod.snd) := by decide
    exact absurd hv this

theorem tblLookupRev_mem_fst {c v : Char} {tbl : List (Char × Char)}
    (h : tblLookupRev c tbl = some v) : v ∈ tbl.map Prod.fst := by
  induction tbl with
  | nil => simp [tblLookupRev] at h
  | cons p rest ih =>
    rcases p with ⟨a, b⟩
    simp only [tblLookupRev] at h
    by_cases hc : c = b
    · rw [if_pos hc] at h
      cases h
      simp
    · rw [if_neg hc] at h
      simp [ih h]

theorem toUpperRu_eq_bang {c : Char} (h : toUpperRu c = '!') : c = '!' := by
  unfold toUpperRu at h
  cases hl : tblLookupRev c caseTbl with
  | none => simpa [hl] using h
  | some v =>
    rw [hl] at h
    simp only [Option.getD_some] at h
    subst h
    have hfst : '!' ∈ caseTbl.map Prod.fst := tblLookupRev_mem_fst hl
    have : ¬ ('!' ∈ caseTbl.map Prod.fst) := by decide
    exact absurd hfst this

theorem isUpperChar_toUpperRu_fix {c : Char} (h : isUpperChar c = true) :
    toUpperRu c = c := by
  simp only [isUpperChar, Bool.or_eq_true, beq_iff_eq] at h
  rcases h with h | h
  · have hm : c ∈ caseTbl.map Prod.fst := tblLookup_mem_fst h
    have hall : ∀ x ∈ caseTbl.map Prod.fst, tblLookupRev x caseTbl = none := by decide
    unfold toUpperRu
    rw [hall c hm]
    rfl
  · subst h
    decide

theorem not_upper_toLowerRu_fix {c : Char} (h : isUpperChar c = false) :
    toLowerRu c = c := by
  unfold isUpperChar at h
  have h1 : (tblLookup c caseTbl).isSome = false := (Bool.or_eq_false_iff.mp h).1
  unfold toLowerRu
  cases hl : tblLookup c caseTbl with
  | none => rfl
  | some v => rw [hl] at h1; simp at h1

theorem isLowerChar_not_upper {c : Char} (h : isLowerChar c = true) :
    isUpperChar c = false := by
  unfold isLowerChar at h
  cases hl : tblLookupRev c caseTbl with
  | none => rw [hl] at h; simp at h
  | some v =>
    have hm : c ∈ caseTbl.map Prod.snd := tblLookupRev_mem_snd hl
    have hall : ∀ x ∈ caseTbl.map Prod.snd, tblLookup x caseTbl = none := by decide
    have hni : ∀ x ∈ caseTbl.map Prod.snd, (x == '\u0130') = false := by decide
    unfold isUpperChar
    rw [hall c hm, hni c hm]
    rfl

theorem toLowerRu_lower_or_fix {c : Char} (hc : c ≠ '\u0130') :
    isLowerChar (toLowerRu c) = true ∨
      (toLowerRu c = c ∧ isUpperChar c = false) := by
  unfold toLowerRu
  cases hl : tblLookup c caseTbl with
  | none =>
    right
    refine ⟨rfl, ?_⟩
    unfold isUpperChar
    rw [hl]
    simp [hc]
  | some v =>
    left
    have hv := tblLookup_mem_snd hl
    have hall : ∀ x ∈ caseTbl.map Prod.snd, isLowerChar x = true := by decide
    simpa using hall v hv

/-! ## Exclamation-count lemmas -/

theorem count_map_toLowerRu (m : List Char) :
    (m.map toLowerRu).count '!' = m.count '!' := by
  induction m with
  | nil => rfl
  | cons c cs ih =>
    simp only [List.map_cons, List.count_cons, ih]
    by_cases hc : c = '!'
    · subst hc
      have h1 : toLowerRu '!' = '!' := by decide
      rw [h1]
    · have h2 : toLowerRu c ≠ '!' := fun he => hc (toLowerRu_eq_bang he)
      simp [hc, h2, Ne.symm hc, Ne.symm h2]

theorem count_pyLowerChar_bang (c : Char) :
    (pyLowerChar c).count '!' = List.count '!' [c] := by
  by_cases h : c = '\u0130'
  · subst h
    decide
  · rw [pyLowerChar_of_ne h]
    by_cases hb : c = '!'
    · subst hb
      have h1 : toLowerRu '!' = '!' := by decide
      rw [h1]
    · have h2 : toLowerRu c ≠ '!' := fun he => hb (toLowerRu_eq_bang he)
      simp [List.count_cons, hb, h2, Ne.symm hb, Ne.symm h2]

theorem count_flatMap_pyLowerChar (m : List Char) :
    (m.flatMap pyLowerChar).count '!' = m.count '!' := by
  induction m with
  | nil => rfl
  | cons c cs ih =>
    rw [List.flatMap_cons, List.count_append, count_pyLowerChar_bang, ih,
      show (c :: cs) = [c] ++ cs from rfl, List.count_append]

theorem count_pyCapitalize (m : List Char) :
    (pyCapitalize m).count '!' = m.count '!' := by
  cases m with
  | nil => rfl
  | cons c cs =>
    show (toUpperRu c :: cs.flatMap pyLowerChar).count '!' = (c :: cs).count '!'
    rw [show (toUpperRu c :: cs.flatMap pyLowerChar)
          = [toUpperRu c] ++ cs.flatMap pyLowerChar from rfl,
      show (c :: cs) = [c] ++ cs from rfl,
      List.count_append, List.count_append, count_flatMap_pyLowerChar]
    by_cases hc : c = '!'
    · subst hc
      have h1 : toUpperRu '!' = '!' := by decide
      rw [h1]
    · have h2 : toUpperRu c ≠ '!' := fun he => hc (toUpperRu_eq_bang he)
      simp [List.count_cons, hc, h2, Ne.symm hc, Ne.symm h2]

theorem count_capsStep (m : List Char) : (capsStep m).count '!' = m.count '!' := by
  unfold capsStep
  split
  · exact count_pyCapitalize m
  · rfl

theorem isPySpace_ne_bang {c : Char} (h : isPySpace c = true) : c ≠ '!' := by
  intro he
  subst he
  have : isPySpace '!' = false := by decide
  rw [this] at h
  cases h

theorem count_collapseAux (p : Bool) (m : List Char) :
    (collapseAux p m).count '!' = m.count '!' := by
  induction m generalizing p with
  | nil => rfl
  | cons c cs ih =>
    simp only [collapseAux]
    cases h : isPySpace c with
    | true =>
      have hne := isPySpace_ne_bang h
      simp [List.count_cons, ih true, hne, Ne.symm hne]
    | false =>
      cases p with
      | true =>
        have hsp : (' ' : Char) ≠ '!' := by decide
        simp [List.count_cons, ih false, hsp, Ne.symm hsp]
      | false => simp [List.count_cons, ih false]

theorem count_dropWhile_pySpace (m : List Char) :
    (m.dropWhile isPySpace).count '!' = m.count '!' := by
  induction m with
  | nil => rfl
  | cons c cs ih =>
    rw [List.dropWhile_cons]
    split
    · next h =>
      have hne := isPySpace_ne_bang h
      rw [ih]
      simp [List.count_cons, hne, Ne.symm hne]
    · rfl

theorem count_spaceStep (m : List Char) : (spaceStep m).count '!' = m.count '!' := by
  unfold spaceStep
  rw [count_collapseAux, count_dropWhile_pySpace]

theorem count_removeN (ch : Char) (n : Nat) (m : List Char) (h : n ≤ m.count ch) :
    (removeN ch n m).count ch = m.count ch - n := by
  induction m generalizing n with
  | nil => simp [removeN]
  | cons d l ih =>
    cases n with
    | zero => simp [removeN]
    | succ k =>
      simp only [removeN]
      by_cases hd : d = ch
      · subst hd
        rw [if_pos rfl]
        have hcnt : (d :: l).count d = l.count d + 1 := by simp [List.count_cons]
        rw [hcnt] at h ⊢
        have hk : k ≤ l.count d := by omega
        rw [ih k hk]
        omega
      · rw [if_neg hd]
        have hcnt : (d :: l).count ch = l.count ch := by
          simp [List.count_cons, Ne.symm hd]
        have hcons : (d :: removeN ch (k + 1) l).count ch =
            (removeN ch (k + 1) l).count ch := by
          simp [List.count_cons, Ne.symm hd]
        rw [hcnt] at h ⊢
        rw [hcons, ih (k + 1) h]

theorem count_exclaimStep_le (m : List Char) : (exclaimStep m).count '!' ≤ 1 := by
  unfold exclaimStep
  split
  · next h =>
    rw [count_removeN '!' (m.count '!' - 1) m (by omega)]
    omega
  · next h => omega

theorem count_validateMsg_le (m : List Char) : (validateMsg m).count '!' ≤ 1 := by
  unfold validateMsg
  rw [count_spaceStep, count_capsStep]
  exact count_exclaimStep_le _

/-! ## Idempotence lemmas for the validator steps -/

theorem collapseAux_twice (p : Bool) (m : List Char) :
    collapseAux false (collapseAux p m) = collapseAux p m := by
  induction m generalizing p with
  | nil => rfl
  | cons c cs ih =>
    cases h : isPySpace c with
    | true =>
      simp only [collapseAux, h, if_true]
      exact ih true
    | false =>
      cases p with
      | true =>
        simp only [collapseAux, h, Bool.false_eq_true, if_false, if_true]
        have hsp : isPySpace ' ' = true := by decide
        simp only [collapseAux, hsp, if_true, h, Bool.false_eq_true, if_false]
        rw [ih false]
      | false =>
        simp only [collapseAux, h, Bool.false_eq_true, if_false]
        rw [ih false]

theorem dropWhile_pySpace_head {l : List Char} {c : Char} {cs : List Char}
    (h : l.dropWhile isPySpace = c :: cs) : isPySpace c = false := by
  induction l with
  | nil => simp at h
  | cons d t ih =>
    rw [List.dropWhile_cons] at h
    split at h
    · exact ih h
    · next hd =>
      cases h
      exact Bool.not_eq_true _ ▸ (by simpa using hd)

theorem spaceStep_idem (m : List Char) : spaceStep (spaceStep m) = spaceStep m := by
  show spaceStep (collapseAux false (m.dropWhile isPySpace)) = _
  cases hl : m.dropWhile isPySpace with
  | nil => simp [spaceStep, hl, collapseAux]
  | cons d t =>
    have hd : isPySpace d = false := dropWhile_pySpace_head hl
    have hexp : collapseAux false (d :: t) = d :: collapseAux false t := by
      simp only [collapseAux, hd, Bool.false_eq_true, if_false]
    unfold spaceStep
    rw [hl, hexp, List.dropWhile_cons, if_neg (by simp [hd])]
    rw [← hexp, collapseAux_twice]

theorem isPySpace_uncased {c : Char} (h : isPySpace c = true) :
    isUpperChar c = false ∧ isLowerChar c = false := by
  have hm : c ∈ pySpaceChars := List.mem_of_elem_eq_true h
  have hall : ∀ x ∈ pySpaceChars, isUpperChar x = false ∧ isLowerChar x = false := by
    decide
  exact hall c hm

theorem any_upper_collapseAux (p : Bool) (l : List Char) :
    (collapseAux p l).any isUpperChar = l.any isUpperChar := by
  induction l generalizing p with
  | nil => rfl
  | cons c cs ih =>
    cases h : isPySpace c with
    | true =>
      have hu := (isPySpace_uncased h).1
      simp only [collapseAux, h, if_true, List.any_cons, hu, Bool.false_or]
      exact ih true
    | false =>
      cases p with
      | true =>
        have hsp : isUpperChar ' ' = false := by decide
        simp only [collapseAux, h, Bool.false_eq_true, if_false, if_true,
          List.any_cons, hsp, Bool.false_or]
        rw [ih false]
      | false =>
        simp only [collapseAux, h, Bool.false_eq_true, if_false, List.any_cons]
        rw [ih false]

theorem all_notlower_collapseAux (p : Bool) (l : List Char) :
    (collapseAux p l).all (fun c => !isLowerChar c) =
      l.all (fun c => !isLowerChar c) := by
  induction l generalizing p with
  | nil => rfl
  | cons c cs ih =>
    cases h : isPySpace c with
    | true =>
      have hu := (isPySpace_uncased h).2
      simp only [collapseAux, h, if_true, List.all_cons, hu, Bool.not_false,
        Bool.true_and]
      exact ih true
    | false =>
      cases p with
      | true =>
        have hsp : isLowerChar ' ' = false := by decide
        simp only [collapseAux, h, Bool.false_eq_true, if_false, if_true,
          List.all_cons, hsp, Bool.not_false, Bool.true_and]
        rw [ih false]
      | false =>
        simp only [collapseAux, h, Bool.false_eq_true, if_false, List.all_cons]
        rw [ih false]

theorem any_upper_dropWhile (l : List Char) :
    (l.dropWhile isPySpace).any isUpperChar = l.any isUpperChar := by
  induction l with
  | nil => rfl
  | cons c cs ih =>
    rw [List.dropWhile_cons]
    split
    · next h =>
      have hu := (isPySpace_uncased h).1
      simp [ih, List.any_cons, hu]
    · rfl

theorem all_notlower_dropWhile (l : List Char) :
    (l.dropWhile isPySpace).all (fun c => !isLowerChar c) =
      l.all (fun c => !isLowerChar c) := by
  induction l with
  | nil => rfl
  | cons c cs ih =>
    rw [List.dropWhile_cons]
    split
    · next h =>
      have hu := (isPySpace_uncased h).2
      simp [ih, List.all_cons, hu]
    · rfl

theorem pyIsUpper_spaceStep (l : List Char) :
    pyIsUpper (spaceStep l) = pyIsUpper l := by
  unfold pyIsUpper spaceStep
  rw [any_upper_collapseAux, all_notlower_collapseAux,
    any_upper_dropWhile, all_notlower_dropWhile]

theorem mem_collapseAux {v : Char} {p : Bool} {l : List Char}
    (h : v ∈ collapseAux p l) : v = ' ' ∨ v ∈ l := by
  induction l generalizing p with
  | nil => simp [collapseAux] at h
  | cons c cs ih =>
    simp only [collapseAux] at h
    split at h
    · rcases ih h with h1 | h1
      · exact Or.inl h1
      · exact Or.inr (List.mem_cons_of_mem _ h1)
    · split at h
      · simp only [List.mem_cons] at h
        rcases h with h1 | h1 | h1
        · exact Or.inl h1
        · exact Or.inr (h1 ▸ List.mem_cons_self _ _)
        · rcases ih h1 with h2 | h2
          · exact Or.inl h2
          · exact Or.inr (List.mem_cons_of_mem _ h2)
      · simp only [List.mem_cons] at h
        rcases h with h1 | h1
        · exact Or.inr (h1 ▸ List.mem_cons_self _ _)
        · rcases ih h1 with h2 | h2
          · exact Or.inl h2
          · exact Or.inr (List.mem_cons_of_mem _ h2)

theorem pyLowerChar_fix_of_not_upper {c : Char} (h : isUpperChar c = false) :
    pyLowerChar c = [c] := by
  have hni : c ≠ '\u0130' := by
    intro he
    rw [he] at h
    exact absurd h (by decide)
  rw [pyLowerChar_of_ne hni, not_upper_toLowerRu_fix h]

theorem flatMap_id_of_singleton {l : List Char}
    (h : ∀ v ∈ l, pyLowerChar v = [v]) : l.flatMap pyLowerChar = l := by
  induction l with
  | nil => rfl
  | cons c cs ih =>
    rw [List.flatMap_cons, h c (List.mem_cons_self _ _),
      ih (fun v hv => h v (List.mem_cons_of_mem _ hv))]
    rfl

theorem capsStep_after_spaceStep (w : List Char) :
    capsStep (spaceStep (capsStep w)) = spaceStep (capsStep w) := by
  by_cases hyu : pyIsUpper (spaceStep (capsStep w)) = true
  case neg =>
    unfold capsStep
    rw [if_neg (by simpa using hyu)]
  case pos =>
    have hzu : pyIsUpper (capsStep w) = true := by
      rw [pyIsUpper_spaceStep] at hyu
      exact hyu
    by_cases hwu : pyIsUpper w = true
    case neg =>
      have hzw : capsStep w = w := by
        unfold capsStep
        rw [if_neg (by simpa using hwu)]
      rw [hzw] at hzu
      exact absurd hzu hwu
    case pos =>
      have hzdef : capsStep w = pyCapitalize w := by
        unfold capsStep
        rw [if_pos hwu]
      cases w with
      | nil => simp [pyIsUpper] at hwu
      | cons w0 wt =>
        rw [hzdef] at hzu hyu ⊢
        simp only [pyCapitalize] at hzu hyu ⊢
        set z0 := toUpperRu w0 with hz0
        set zt := wt.flatMap pyLowerChar with hzt
        have hzu' := hzu
        unfold pyIsUpper at hzu'
        rw [Bool.and_eq_true] at hzu'
        obtain ⟨hall, hany⟩ := hzu'
        rw [List.all_eq_true] at hall
        have htail : ∀ v ∈ zt, isUpperChar v = false ∧ isLowerChar v = false := by
          intro v hv
          have hnl : isLowerChar v = false := by
            have := hall v (List.mem_cons_of_mem _ hv)
            simpa using this
          rw [hzt] at hv
          rcases List.mem_flatMap.mp hv with ⟨u, _, hu⟩
          by_cases hui : u = '\u0130'
          · subst hui
            rw [pyLowerChar_iDot] at hu
            rcases List.mem_cons.mp hu with h1 | h1
            · subst h1
              exact absurd hnl (by decide)
            · have h2 : v = '\u0307' := by simpa using h1
              subst h2
              exact ⟨by decide, hnl⟩
          · rw [pyLowerChar_of_ne hui] at hu
            have h2 : v = toLowerRu u := by simpa using hu
            rcases toLowerRu_lower_or_fix hui with hc | ⟨hfix, hnu⟩
            · rw [← h2] at hc
              rw [hc] at hnl
              cases hnl
            · refine ⟨?_, hnl⟩
              rw [h2, hfix]
              exact hnu
        have hz0u : isUpperChar z0 = true := by
          rw [List.any_eq_true] at hany
          rcases hany with ⟨v, hv, hvu⟩
          rcases List.mem_cons.mp hv with h1 | h1
          · rw [← h1]; exact hvu
          · rw [(htail v h1).1] at hvu
            cases hvu
        have hz0sp : isPySpace z0 = false := by
          cases hsp : isPySpace z0 with
          | false => rfl
          | true =>
            rw [(isPySpace_uncased hsp).1] at hz0u
            cases hz0u
        have hss : spaceStep (z0 :: zt) = z0 :: collapseAux false zt := by
          unfold spaceStep
          rw [List.dropWhile_cons, if_neg (by simp [hz0sp])]
          simp only [collapseAux, hz0sp, Bool.false_eq_true, if_false]
        rw [hss] at hyu ⊢
        unfold capsStep
        rw [if_pos hyu]
        simp only [pyCapitalize]
        rw [isUpperChar_toUpperRu_fix hz0u]
        have hflatfix : (collapseAux false zt).flatMap pyLowerChar = collapseAux false zt := by
          apply flatMap_id_of_singleton
          intro v hv
          rcases mem_collapseAux hv with h1 | h1
          · rw [h1]; decide
          · exact pyLowerChar_fix_of_not_upper (htail v h1).1
        rw [hflatfix]

/-- C5 counterexample: on a letter followed by sixty spaces the whitespace
collapse shrinks the validated message to one character, so a second
application appends `' Узнать подробнее?'` and the result differs —
`validate(validate(x)) ≠ validate(x)`. -/
theorem c5_counterexample_not_idempotent :
    validateMsg (validateMsg c5input) ≠ validateMsg c5input := by decide

/-- C5 amended: the validator is idempotent on every input whose validated
output has between 50 and 220 characters; when the output drops below 50
(short inputs, or whitespace collapse and exclamation removal shrinking a
longer one) a second application appends `' Узнать подробнее?'` again, and
an output past 220 characters (possible only through the U+0130 full
lowercase mapping in `capitalize()`) would be truncated again. -/
theorem c5_amended_idempotent_on_long_outputs (m : List Char)
    (h : 50 ≤ (validateMsg m).length) (hle : (validateMsg m).length ≤ 220) :
    validateMsg (validateMsg m) = validateMsg m := by
  have hlen : lenStep (validateMsg m) = validateMsg m := by
    unfold lenStep
    rw [if_neg (by omega), if_neg (by omega)]
  have hexc : exclaimStep (validateMsg m) = validateMsg m := by
    have hc := count_validateMsg_le m
    unfold exclaimStep
    rw [if_neg (by omega)]
  have hcaps : capsStep (validateMsg m) = validateMsg m := by
    show capsStep (validateMsg m) = validateMsg m
    unfold validateMsg
    exact capsStep_after_spaceStep _
  have hspace : spaceStep (validateMsg m) = validateMsg m := by
    unfold validateMsg
    exact spaceStep_idem _
  calc validateMsg (validateMsg m)
      = spaceStep (capsStep (exclaimStep (lenStep (validateMsg m)))) := rfl
    _ = spaceStep (capsStep (validateMsg m)) := by rw [hlen, hexc]
    _ = spaceStep (validateMsg m) := by rw [hcaps]
    _ = validateMsg m := hspace

/-- Witness for the amended C5 at a concrete 59-character message whose
validated form has 55 characters. -/
theorem c5_amended_idempotent_witness :
    50 ≤ (validateMsg ("Аружан, привет!! ЭТО тест  сообщения для примера проверки!").data).length ∧
      (validateMsg ("Аружан, привет!! ЭТО тест  сообщения для примера проверки!").data).length ≤ 220 ∧
      validateMsg (validateMsg ("Аружан, привет!! ЭТО тест  сообщения для примера проверки!").data) =
        validateMsg ("Аружан, привет!! ЭТО тест  сообщения для примера проверки!").data :=
  ⟨by decide, by decide,
   c5_amended_idempotent_on_long_outputs
     ("Аружан, привет!! ЭТО тест  сообщения для примера проверки!").data
     (by decide) (by decide)⟩

/-! ## Exclamation removal removes from the left -/

theorem filter_of_count_zero {l : List Char} (h : l.count '!' = 0) :
    l.filter (fun c => !(c == '!')) = l := by
  induction l with
  | nil => rfl
  | cons d t ih =>
    have hd : (d == '!') = false := by
      by_cases hdd : d = '!'
      · subst hdd
        simp [List.count_cons] at h
      · simpa using hdd
    have ht : t.count '!' = 0 := by
      simp only [List.count_cons, hd] at h
      simpa using h
    simp [List.filter_cons, hd, ih ht]

theorem removeN_all_left (u v : List Char) :
    removeN '!' (u.count '!') (u ++ '!' :: v) =
      u.filter (fun c => !(c == '!')) ++ '!' :: v := by
  induction u with
  | nil => simp [removeN]
  | cons d u' ih =>
    simp only [List.cons_append]
    by_cases hd : d = '!'
    · have hbe : (d == '!') = true := by simpa using hd
      have hcnt : (d :: u').count '!' = u'.count '!' + 1 := by
        simp [List.count_cons, hbe]
      rw [hcnt]
      simp only [removeN, if_pos hd]
      rw [ih]
      simp [List.filter_cons, hbe]
    · have hbe : (d == '!') = false := by simpa using hd
      have hcnt : (d :: u').count '!' = u'.count '!' := by
        simp [List.count_cons, hbe]
      rw [hcnt]
      cases hcu : u'.count '!' with
      | zero =>
        simp only [removeN]
        simp [List.filter_cons, hbe, filter_of_count_zero hcu]
      | succ k =>
        simp only [removeN, if_neg hd]
        rw [hcu] at ih
        rw [ih]
        simp [List.filter_cons, hbe]

/-- C8 counterexample: on a 71-character message with two `'!'` and no
call-to-action verb, the validator removes the first `'!'` (keeping the
rightmost, not removing from the right) and neither checks for nor appends a
call-to-action verb: the output contains none of the nine claimed verbs. -/
theorem c8_counterexample_no_cta :
    validate_message m8 =
      "Привет, это сообщение без нужного глагола И вторая фраза тоже! Конец." ∧
      hasCTA_spec (validate_message m8).data = false := by
  constructor
  · decide
  · decide

/-- C8 amended: every validated message contains at most one `'!'`, but the
excess marks are removed from the left — writing the input as
`u ++ '!' :: v` with the last `'!'` shown, the exclamation step deletes
exactly the `'!'` occurrences inside `u` and keeps the final one — and the
validator performs no call-to-action check at all. -/
theorem c8_amended_exclaim_removes_from_left (m u v : List Char)
    (hm : m = u ++ '!' :: v) (hv : v.count '!' = 0) (hc : 1 < m.count '!') :
    exclaimStep m = u.filter (fun c => !(c == '!')) ++ '!' :: v ∧
      (validateMsg m).count '!' ≤ 1 := by
  refine ⟨?_, count_validateMsg_le m⟩
  have hcnt : m.count '!' = u.count '!' + 1 := by
    subst hm
    simp [List.count_append, List.count_cons, hv]
  unfold exclaimStep
  rw [if_pos hc, hcnt]
  simp only [Nat.add_sub_cancel]
  rw [hm]
  exact removeN_all_left u v

/-- Witness for the amended C8 on the concrete input `"!а!б"`. -/
theorem c8_amended_exclaim_witness :
    exclaimStep ('!' :: 'а' :: '!' :: 'б' :: []) =
        ('!' :: 'а' :: []).filter (fun c => !(c == '!')) ++ '!' :: ('б' :: []) ∧
      (validateMsg ('!' :: 'а' :: '!' :: 'б' :: [])).count '!' ≤ 1 :=
  c8_amended_exclaim_removes_from_left ('!' :: 'а' :: '!' :: 'б' :: [])
    ('!' :: 'а' :: []) ('б' :: []) (by decide) (by decide) (by decide)

/-! ## Ranking-sort lemmas -/

theorem keyLt_asymm {a b : Notification} (h : KeyLt a b) : ¬ KeyLt b a := by
  rcases h with h | ⟨he, hs⟩
  · rintro (h2 | ⟨he2, _⟩)
    · exact absurd h2 (lt_asymm h)
    · unfold pyStrLt at h
      rw [he2] at h
      exact lt_irrefl _ h
  · rintro (h2 | ⟨_, hs2⟩)
    · unfold pyStrLt at h2
      rw [he] at h2
      exact lt_irrefl _ h2
    · exact absurd hs2 (lt_asymm hs)

theorem keyLt_congr_left {a b c : Notification} (hp : a.priority = b.priority)
    (hs : a.analysis_score = b.analysis_score) : KeyLt a c ↔ KeyLt b c := by
  unfold KeyLt pyStrLt
  rw [hp, hs]

theorem keyLt_trans {a b c : Notification} (h1 : KeyLt a b) (h2 : KeyLt b c) :
    KeyLt a c := by
  rcases h1 with h1 | ⟨he1, hs1⟩ <;> rcases h2 with h2 | ⟨he2, hs2⟩
  · exact Or.inl (lt_trans h1 h2)
  · left
    unfold pyStrLt at h1 ⊢
    rw [← he2]
    exact h1
  · left
    unfold pyStrLt at h2 ⊢
    rw [he1]
    exact h2
  · exact Or.inr ⟨he1.trans he2, lt_trans hs1 hs2⟩

theorem keyLt_trichotomy (a b : Notification) :
    KeyLt a b ∨ (a.priority = b.priority ∧ a.analysis_score = b.analysis_score) ∨
      KeyLt b a := by
  rcases lt_trichotomy a.priority.data b.priority.data with h | h | h
  · exact Or.inl (Or.inl h)
  · have hp : a.priority = b.priority := String.ext h
    rcases lt_trichotomy a.analysis_score b.analysis_score with h2 | h2 | h2
    · exact Or.inl (Or.inr ⟨hp, h2⟩)
    · exact Or.inr (Or.inl ⟨hp, h2⟩)
    · exact Or.inr (Or.inr (Or.inr ⟨hp.symm, h2⟩))
  · exact Or.inr (Or.inr (Or.inl h))

theorem notKeyLt_trans {a b c : Notification} (hab : ¬ KeyLt a b)
    (hbc : ¬ KeyLt b c) : ¬ KeyLt a c := by
  intro hac
  rcases keyLt_trichotomy a b with h | ⟨hp, hs⟩ | h
  · exact hab h
  · exact hbc ((keyLt_congr_left hp hs).mp hac)
  · exact hbc (keyLt_trans h hac)

theorem mem_insertDesc {v x : Notification} {l : List Notification} :
    v ∈ insertDesc x l ↔ v = x ∨ v ∈ l := by
  induction l with
  | nil => simp [insertDesc]
  | cons y ys ih =>
    unfold insertDesc
    split
    · simp only [List.mem_cons, ih]
      tauto
    · simp only [List.mem_cons]

theorem length_insertDesc (x : Notification) (l : List Notification) :
    (insertDesc x l).length = l.length + 1 := by
  induction l with
  | nil => rfl
  | cons y ys ih =>
    unfold insertDesc
    split
    · simp [ih]
    · simp

theorem pairwise_insertDesc {x : Notification} {l : List Notification}
    (h : l.Pairwise (fun a b => ¬ KeyLt a b)) :
    (insertDesc x l).Pairwise (fun a b => ¬ KeyLt a b) := by
  induction l with
  | nil => simp [insertDesc]
  | cons y ys ih =>
    rw [List.pairwise_cons] at h
    obtain ⟨hy, hys⟩ := h
    unfold insertDesc
    split
    · next hlt =>
      rw [List.pairwise_cons]
      refine ⟨?_, ih hys⟩
      intro z hz
      rcases mem_insertDesc.mp hz with h1 | h1
      · rw [h1]
        exact keyLt_asymm hlt
      · exact hy z h1
    · next hlt =>
      rw [List.pairwise_cons]
      refine ⟨?_, List.pairwise_cons.mpr ⟨hy, hys⟩⟩
      intro z hz
      rcases List.mem_cons.mp hz with h1 | h1
      · rw [h1]
        exact hlt
      · exact notKeyLt_trans hlt (hy z h1)

theorem pairwise_sortNotifications (l : List Notification) :
    (sortNotifications l).Pairwise (fun a b => ¬ KeyLt a b) := by
  induction l with
  | nil => simp [sortNotifications]
  | cons x xs ih =>
    show (insertDesc x (sortNotifications xs)).Pairwise _
    exact pairwise_insertDesc ih

theorem mem_sortNotifications {v : Notification} {l : List Notification} :
    v ∈ sortNotifications l ↔ v ∈ l := by
  induction l with
  | nil => simp [sortNotifications]
  | cons x xs ih =>
    show v ∈ insertDesc x (sortNotifications xs) ↔ _
    rw [mem_insertDesc, ih]
    simp

theorem length_sortNotifications (l : List Notification) :
    (sortNotifications l).length = l.length := by
  induction l with
  | nil => rfl
  | cons x xs ih =>
    show (insertDesc x (sortNotifications xs)).length = _
    rw [length_insertDesc, ih]
    rfl

/-- C1 counterexample: a run producing one high-priority and one low-priority
notification returns them with the low-priority result first —
`reverse=True` on the raw priority strings sorts `'medium' > 'low' > 'high'`
lexicographically, not by `priorityRank` — so the claimed bucket order is
violated. -/
theorem c1_counterexample_low_before_high :
    ¬ specBucketOrdered (analyze_client_with_scenarios noDeadline stepC1) := by
  decide

/-- C1 amended: the returned list is sorted descending by the pair
`(priority-string, score)` under plain lexicographic string comparison — so
among the produced buckets `medium` results precede `low`, and `low` precede
`high` — with equal keys kept in scenario-registry order, and with no
expected-benefit or product-name tie-break. -/
theorem c1_amended_sorted_by_raw_string_key (timedOut : Nat → Bool)
    (step : String → Except Unit Notification) :
    (analyze_client_with_scenarios timedOut step).Pairwise
      (fun a b => ¬ KeyLt a b) :=
  pairwise_sortNotifications _

/-! ## Evaluator lemmas -/

theorem filter_partition_length (p : α → Bool) (l : List α) :
    (l.filter p).length + (l.filter (fun a => !(p a))).length = l.length := by
  induction l with
  | nil => rfl
  | cons x xs ih =>
    cases h : p x <;> simp [List.filter_cons, h, ← ih] <;> omega

theorem length_runScenarios (timedOut : Nat → Bool)
    (step : String → Except Unit Notification) (hT : ∀ n, timedOut n = false) :
    ∀ (ks : List String) (n : Nat),
      (runScenarios timedOut step ks n).length =
        (ks.filter (fun k => (step k).toOption.isSome)).length := by
  intro ks
  induction ks with
  | nil => intro n; rfl
  | cons k ks' ih =>
    intro n
    unfold runScenarios
    rw [hT n]
    simp only [Bool.false_eq_true, if_false]
    cases hs : step k with
    | error e => simp [List.filter_cons, hs, Except.toOption, ih (n + 1)]
    | ok v => simp [List.filter_cons, hs, Except.toOption, ih (n + 1)]

theorem mem_runScenarios {timedOut : Nat → Bool}
    {step : String → Except Unit Notification} {v : Notification} :
    ∀ {ks : List String} {n : Nat}, v ∈ runScenarios timedOut step ks n →
      ∃ k w, k ∈ ks ∧ step k = Except.ok w ∧ v = { w with product_key := k } := by
  intro ks
  induction ks with
  | nil => intro n h; simp [runScenarios] at h
  | cons k ks' ih =>
    intro n h
    unfold runScenarios at h
    split at h
    · simp at h
    · split at h
      · rcases ih h with ⟨k', w, hk', hs, hv⟩
        exact ⟨k', w, List.mem_cons_of_mem _ hk', hs, hv⟩
      · next w hs =>
        rcases List.mem_cons.mp h with h1 | h1
        · exact ⟨k, w, List.mem_cons_self _ _, hs, h1⟩
        · rcases ih h1 with ⟨k', w', hk', hs', hv⟩
          exact ⟨k', w', List.mem_cons_of_mem _ hk', hs', hv⟩

/-- C3: in a run where the deadline is never hit, the evaluator returns
exactly `10 − k` notifications when `k` of the ten scenarios raise (all ten
when none does), no raised scenario's registry key appears in the output,
and a scenario failure never aborts the remaining scenarios — the count
includes every scenario after a failing one. -/
theorem c3_graceful_degradation (timedOut : Nat → Bool)
    (step : String → Except Unit Notification) (hT : ∀ n, timedOut n = false) :
    (analyze_client_with_scenarios timedOut step).length =
        10 - (scenarioKeys.filter (fun k => !(step k).toOption.isSome)).length ∧
      ∀ k ∈ scenarioKeys, (step k).toOption.isSome = false →
        ∀ v ∈ analyze_client_with_scenarios timedOut step, v.product_key ≠ k := by
  constructor
  · unfold analyze_client_with_scenarios
    rw [length_sortNotifications, length_runScenarios timedOut step hT]
    have hpart := filter_partition_length
      (fun k => (step k).toOption.isSome) scenarioKeys
    have hten : scenarioKeys.length = 10 := rfl
    omega
  · intro k hk hfail v hv hkey
    have hv' : v ∈ runScenarios timedOut step scenarioKeys 0 :=
      mem_sortNotifications.mp hv
    rcases mem_runScenarios hv' with ⟨k', w, hk', hs, hveq⟩
    have : v.product_key = k' := by rw [hveq]
    rw [hkey] at this
    rw [← this] at hs
    rw [hs] at hfail
    simp [Except.toOption] at hfail

/-- Witness for C3: with two of the ten scenarios raising, the evaluator
returns eight notifications and neither failing key appears. -/
theorem c3_graceful_degradation_witness :
    ((analyze_client_with_scenarios noDeadline
          (fun k => if k = "investments" ∨ k = "gold_bars" then Except.error ()
            else Except.ok nHigh)).length =
        10 - (scenarioKeys.filter (fun k =>
          !((if k = "investments" ∨ k = "gold_bars" then Except.error ()
            else Except.ok nHigh : Except Unit Notification)).toOption.isSome)).length ∧
      ∀ k ∈ scenarioKeys,
        ((if k = "investments" ∨ k = "gold_bars" then Except.error ()
          else Except.ok nHigh : Except Unit Notification)).toOption.isSome = false →
        ∀ v ∈ analyze_client_with_scenarios noDeadline
          (fun k => if k = "investments" ∨ k = "gold_bars" then Except.error ()
            else Except.ok nHigh), v.product_key ≠ k) ∧
      (analyze_client_with_scenarios noDeadline
        (fun k => if k = "investments" ∨ k = "gold_bars" then Except.error ()
          else Except.ok nHigh)).length = 8 :=
  ⟨c3_graceful_degradation noDeadline _ (fun _ => rfl), by decide⟩

/-! ## TravelCard scenario lemmas -/

theorem analyze_travel_spending_state_indep (s1 s2 : Option TravelData)
    (txs : List Tx) (hne : txs.isEmpty = false) (htot : txTotal txs ≠ 0) :
    analyze_travel_spending s1 txs = analyze_travel_spending s2 txs := by
  unfold analyze_travel_spending
  simp only [hne, Bool.false_eq_true, if_false, htot]

/-- C6 counterexample: running the TravelCard scenario object on client A
(one large travel purchase) and then on client B (no transactions) yields a
different verdict for B than a fresh run on B — the stale `travel_data`
from A's call fires the ×1.2 bonus and adds a reason — so a scenario is not
a pure function of its inputs. -/
theorem c6_counterexample_stale_travel_data :
    (travelCard_analyze_client
        (travelCard_analyze_client none (some clientA)).2 (some clientB)).1 ≠
      (travelCard_analyze_client none (some clientB)).1 := by
  decide

/-- C6 amended: the TravelCard scenario is deterministic given equal hidden
`travel_data` state (in particular a pipeline run that constructs fresh
scenario objects is reproducible), and its verdict is independent of the
hidden state whenever the customer has a nonempty transaction list of
nonzero total — because `_analyze_travel_spending` then overwrites
`travel_data`; but on a reused scenario object with a customer whose
transaction list is empty (or sums to zero), the verdict can depend on the
`travel_data` stashed by an earlier call, as the counterexample shows. -/
theorem c6_amended_state_independence (s1 s2 : Option TravelData)
    (cd : ClientData) (hne : cd.transactions.isEmpty = false)
    (htot : txTotal cd.transactions ≠ 0) :
    travelCard_analyze_client s1 (some cd) = travelCard_analyze_client s2 (some cd) := by
  show travelCardCore cd (analyze_travel_spending s1 cd.transactions) =
    travelCardCore cd (analyze_travel_spending s2 cd.transactions)
  rw [analyze_travel_spending_state_indep s1 s2 cd.transactions hne htot]

/-- Witness for the amended C6: client A's verdict is the same from a fresh
object and from an object already holding A's own travel data. -/
theorem c6_amended_state_independence_witness :
    travelCard_analyze_client (travelCard_analyze_client none (some clientA)).2
        (some clientA) =
      travelCard_analyze_client none (some clientA) :=
  c6_amended_state_independence _ none clientA (by decide) (by decide)

theorem analyze_client_status_nonneg (s : String) :
    0 ≤ analyze_client_status s := by
  unfold analyze_client_status
  split_ifs <;> norm_num

theorem calculate_basic_score_nonneg (cd : ClientData) :
    0 ≤ calculate_basic_score cd := by
  dsimp only [calculate_basic_score]
  split_ifs <;> norm_num

theorem analyze_travel_regularity_nonneg (txs : List Tx) :
    0 ≤ analyze_travel_regularity txs := by
  dsimp only [analyze_travel_regularity]
  split_ifs <;> norm_num

theorem analyze_travel_spending_fst_nonneg (st : Option TravelData)
    (txs : List Tx) : 0 ≤ (analyze_travel_spending st txs).1 := by
  dsimp only [analyze_travel_spending]
  split_ifs <;> norm_num

theorem roundQ_nonneg {q : ℚ} (h : 0 ≤ q) : 0 ≤ roundQ q := by
  dsimp only [roundQ]
  have hf : (0 : ℤ) ≤ ⌊q⌋ := Int.floor_nonneg.mpr h
  split_ifs <;> omega

theorem round2_nonneg {q : ℚ} (h : 0 ≤ q) : 0 ≤ round2 q := by
  unfold round2
  have h1 : (0 : ℤ) ≤ roundQ (q * 100) := roundQ_nonneg (by positivity)
  have h2 : (0 : ℚ) ≤ (roundQ (q * 100) : ℚ) := by exact_mod_cast h1
  exact div_nonneg h2 (by norm_num)

theorem calculate_expected_benefit_nonneg (cd : ClientData) {sc : ℚ}
    (hb : 0 ≤ cd.client_info.avg_monthly_balance_KZT) (hs : 0 ≤ sc) :
    0 ≤ calculate_expected_benefit cd sc := by
  unfold calculate_expected_benefit
  apply round2_nonneg
  have : (0 : ℚ) ≤ 2 / 100 := by norm_num
  exact mul_nonneg (mul_nonneg hb this) hs

theorem score_chain_nonneg {S : ℚ} (hS : 0 ≤ S) (c1 c2 : Prop) [Decidable c1]
    [Decidable c2] :
    0 ≤ (if c2 then min ((if c1 then min S 1 * (3 / 10) else min S 1) * (12 / 10)) 1
      else (if c1 then min S 1 * (3 / 10) else min S 1)) := by
  have hf0 : 0 ≤ min S 1 := le_min hS zero_le_one
  have hf1 : 0 ≤ (if c1 then min S 1 * (3 / 10) else min S 1) := by
    by_cases h1 : c1
    · rw [if_pos h1]
      exact mul_nonneg hf0 (by norm_num)
    · rw [if_neg h1]
      exact hf0
  by_cases h2 : c2
  · rw [if_pos h2]
    exact le_min (mul_nonneg hf1 (by norm_num)) zero_le_one
  · rw [if_neg h2]
    exact hf1

theorem travelCardCore_score_nonneg (cd : ClientData) (sp : ℚ × Option TravelData)
    (hsp : 0 ≤ sp.1) : 0 ≤ (travelCardCore cd sp).1.score := by
  have h1 := analyze_client_status_nonneg cd.client_info.status
  have h2 := calculate_basic_score_nonneg cd
  have h3 := analyze_travel_regularity_nonneg cd.transactions
  have hS : 0 ≤ analyze_client_status cd.client_info.status * (2 / 10) +
      calculate_basic_score cd * (25 / 100) + sp.1 * (4 / 10) +
      analyze_travel_regularity cd.transactions * (15 / 100) :=
    add_nonneg
      (add_nonneg
        (add_nonneg (mul_nonneg h1 (by norm_num)) (mul_nonneg h2 (by norm_num)))
        (mul_nonneg hsp (by norm_num)))
      (mul_nonneg h3 (by norm_num))
  dsimp only [travelCardCore]
  exact score_chain_nonneg hS _ _

/-- C7 counterexample: for client A (150 000 ₸ of travel spend, 200 000 ₸
balance) the scenario's expected benefit is 3 576 ₸ —
`round(0.02 × balance × score, 2)` — while Table 4.3's formula
`0.04 × travelSpend + 0.02 × balance` gives 10 000 ₸. -/
theorem c7_counterexample_benefit_formula :
    (travelCard_analyze_client none (some clientA)).1.expected_benefit = 3576 ∧
      travelCard_benefit_spec clientA = 10000 ∧
      (travelCard_analyze_client none (some clientA)).1.expected_benefit ≠
        travelCard_benefit_spec clientA := by
  refine ⟨by decide, by decide, by decide⟩

/-- C7 amended: the TravelCard expected benefit equals the base-class
formula `round(0.02 × balance × score, 2)` evaluated at the returned score —
not the Table 4.3 formula `0.04 × travelSpend + 0.02 × balance` — and is
nonnegative whenever the balance is. -/
theorem c7_amended_base_class_benefit (st : Option TravelData) (cd : ClientData)
    (hbal : 0 ≤ cd.client_info.avg_monthly_balance_KZT) :
    (travelCard_analyze_client st (some cd)).1.expected_benefit =
        calculate_expected_benefit cd
          (travelCard_analyze_client st (some cd)).1.score ∧
      0 ≤ (travelCard_analyze_client st (some cd)).1.expected_benefit := by
  constructor
  · rfl
  · show 0 ≤ (travelCardCore cd _).1.expected_benefit
    have hs := travelCardCore_score_nonneg cd
      (analyze_travel_spending st cd.transactions)
      (analyze_travel_spending_fst_nonneg st cd.transactions)
    exact calculate_expected_benefit_nonneg cd hbal hs

/-- Witness for the amended C7 at client A. -/
theorem c7_amended_base_class_benefit_witness :
    (travelCard_analyze_client none (some clientA)).1.expected_benefit =
        calculate_expected_benefit clientA
          (travelCard_analyze_client none (some clientA)).1.score ∧
      0 ≤ (travelCard_analyze_client none (some clientA)).1.expected_benefit :=
  c7_amended_base_class_benefit none clientA (by decide)

/-- C2: what the batch CSV exporter actually does.  Because
`src/api/analyzer.py` defines no `analyze_client_fast`, the per-customer
`from .analyzer import analyze_client_fast` raises `ImportError` inside the
`try` for every customer, so the stream continues (one row per customer) but
every single row carries product `"Ошибка анализа"` — the top-1
recommendation branch is unreachable. -/
theorem c2_export_every_row_is_error (clients : List (Nat × String)) :
    exportCSVRows analyze_client_fast_actual clients =
        clients.map (fun cl =>
          (cl.1, "Ошибка анализа", cl.2 ++ ", произошла ошибка при анализе ваших данных.")) ∧
      (exportCSVRows analyze_client_fast_actual clients).length = clients.length ∧
      exportCSVRows analyze_client_fast_actual [(1, "Айгерим")] =
        [(1, "Ошибка анализа", "Айгерим, произошла ошибка при анализе ваших данных.")] :=
  ⟨rfl, by simp [exportCSVRows], by decide⟩

/-! ## Money-format lemmas -/

theorem digitChar_mem (n : Nat) : digitChar n ∈ digitChars := by
  by_cases h : n < 10
  · interval_cases n <;> decide
  · unfold digitChar
    have hd : digitChars.getD n '0' = '0' := by
      apply List.getD_eq_default
      simp only [digitChars]
      simp only [List.length_cons, List.length_nil]
      omega
    rw [hd]
    decide

theorem mem_digitsRevAux {c : Char} :
    ∀ (fuel n : Nat), c ∈ digitsRevAux fuel n → c ∈ digitChars := by
  intro fuel
  induction fuel with
  | zero => intro n h; simp [digitsRevAux] at h
  | succ f ih =>
    intro n h
    unfold digitsRevAux at h
    split at h
    · rcases List.mem_singleton.mp h with rfl
      exact digitChar_mem n
    · rcases List.mem_cons.mp h with h1 | h1
      · rw [h1]; exact digitChar_mem (n % 10)
      · exact ih (n / 10) h1

theorem mem_natDigitsRev {c : Char} {n : Nat} (h : c ∈ natDigitsRev n) :
    c ∈ digitChars :=
  mem_digitsRevAux (n + 1) n h

theorem mem_insSep {c : Char} :
    ∀ (l : List Char) (i : Nat), c ∈ insSep l i → c = ' ' ∨ c ∈ l := by
  intro l
  induction l with
  | nil => intro i h; simp [insSep] at h
  | cons x xs ih =>
    intro i h
    cases xs with
    | nil =>
      simp only [insSep] at h
      simp at h
      simp [h]
    | cons y rest =>
      unfold insSep at h
      split at h
      · rcases List.mem_cons.mp h with h1 | h1
        · exact Or.inr (h1 ▸ List.mem_cons_self _ _)
        · rcases List.mem_cons.mp h1 with h2 | h2
          · exact Or.inl h2
          · rcases ih (i + 1) h2 with h3 | h3
            · exact Or.inl h3
            · exact Or.inr (List.mem_cons_of_mem _ h3)
      · rcases List.mem_cons.mp h with h1 | h1
        · exact Or.inr (h1 ▸ List.mem_cons_self _ _)
        · rcases ih (i + 1) h1 with h3 | h3
          · exact Or.inl h3
          · exact Or.inr (List.mem_cons_of_mem _ h3)

theorem mem_groupDigits {c : Char} {n : Nat} (h : c ∈ groupDigits n) :
    c ∈ digitChars ∨ c = ' ' := by
  unfold groupDigits at h
  rw [List.mem_reverse] at h
  rcases mem_insSep _ 0 h with h1 | h1
  · exact Or.inr h1
  · exact Or.inl (mem_natDigitsRev h1)

theorem roundQ_natCast (n : Nat) : roundQ (n : ℚ) = n := by
  dsimp only [roundQ]
  rw [Int.floor_natCast]
  have hz : (n : ℚ) - ((n : ℤ) : ℚ) = 0 := by push_cast; ring
  rw [hz]
  norm_num

theorem head?_insSep (l : List Char) (i : Nat) : (insSep l i).head? = l.head? := by
  cases l with
  | nil => rfl
  | cons x xs =>
    cases xs with
    | nil => rfl
    | cons y rest =>
      unfold insSep
      split <;> rfl

theorem head?_natDigitsRev (n : Nat) :
    (natDigitsRev n).head? = some (digitChar (n % 10)) := by
  unfold natDigitsRev digitsRevAux
  split
  · next h => rw [Nat.mod_eq_of_lt h]; rfl
  · rfl

theorem format_amount_mid_eq (n : Nat) (h1 : 1000 ≤ n) (h2 : n < 1000000) :
    format_amount (n : ℚ) = ⟨groupDigits n ++ ['₸']⟩ := by
  unfold format_amount
  have hc1 : ¬ ((1000000 : ℚ) ≤ (n : ℚ)) := by exact_mod_cast Nat.not_le.mpr h2
  have hc2 : (1000 : ℚ) ≤ (n : ℚ) := by exact_mod_cast h1
  rw [if_neg hc1, if_pos hc2]
  dsimp only
  rw [roundQ_natCast n]
  have hneg : ¬ ((n : ℤ) < 0) := by omega
  rw [if_neg hneg]
  simp [Int.natAbs_ofNat]

/-- C9 counterexample: `format_amount` separates thousands with an ASCII
space — `format_amount 50000 = "50 000₸"` contains no U+00A0 at all — and
appends `'₸'` (or `"млн₸"`) directly after the number with no space of any
kind, so the claimed non-breaking-space formatting does not hold. -/
theorem c9_counterexample_ascii_space_no_nbsp :
    format_amount 50000 = "50 000₸" ∧
      ¬ ('\u00a0' ∈ (format_amount 50000).data) ∧
      format_amount 1500000 = "1,5 млн₸" := by
  refine ⟨by decide, by decide, by decide⟩

/-- C9 amended: for whole-tenge amounts between one thousand and one
million, the formatted string consists only of decimal digits, ASCII spaces
and a final `'₸'` (hence no non-breaking space and no fractional part), and
the `'₸'` follows a digit directly with no separator in between; millions
are rendered with a decimal comma as `"X,Y млн₸"`. -/
theorem c9_amended_ascii_grouping (n : Nat) (h1 : 1000 ≤ n) (h2 : n < 1000000) :
    (∀ c ∈ (format_amount (n : ℚ)).data, c ∈ digitChars ∨ c = ' ' ∨ c = '₸') ∧
      (format_amount (n : ℚ)).data.getLast? = some '₸' ∧
      ∃ d ∈ digitChars, ((format_amount (n : ℚ)).data.dropLast).getLast? = some d := by
  have he := format_amount_mid_eq n h1 h2
  have hdata : (format_amount (n : ℚ)).data = groupDigits n ++ ['₸'] := by
    rw [he]
  refine ⟨?_, ?_, ?_⟩
  · intro c hc
    rw [hdata] at hc
    rcases List.mem_append.mp hc with h | h
    · rcases mem_groupDigits h with h3 | h3
      · exact Or.inl h3
      · exact Or.inr (Or.inl h3)
    · exact Or.inr (Or.inr (List.mem_singleton.mp h))
  · rw [hdata]
    exact List.getLast?_concat _
  · refine ⟨digitChar (n % 10), digitChar_mem _, ?_⟩
    rw [hdata, List.dropLast_concat]
    unfold groupDigits
    rw [List.getLast?_reverse, head?_insSep, head?_natDigitsRev]

/-- Witness for the amended C9 at 50 000 ₸. -/
theorem c9_amended_ascii_grouping_witness :
    (∀ c ∈ (format_amount ((50000 : Nat) : ℚ)).data,
        c ∈ digitChars ∨ c = ' ' ∨ c = '₸') ∧
      (format_amount ((50000 : Nat) : ℚ)).data.getLast? = some '₸' ∧
      ∃ d ∈ digitChars,
        ((format_amount ((50000 : Nat) : ℚ)).data.dropLast).getLast? = some d :=
  c9_amended_ascii_grouping 50000 (by omega) (by omega)
